import Mathlib

/-
Verification of the Elysium.js template-mounting engine.

Shallow embedding of the component-mounting core:
  * `parseProps`            — src/utils/component-parser.ts (parseProps)
  * `mountParseAttrs`       — ComponentLoader.mount's inline attribute regex
  * `mount` and its helpers — ComponentLoader.mount (head normalization,
                              style pre-collection and injection, legacy
                              `<component src=...>` substitution, and the
                              exec/lastIndex-driven capitalized-tag loop)
  * `injectStylesLink`      — ComponentManager.injectStylesLink (dev-server)
  * `onUnlink` / friends    — the dev-server file-watcher invalidation path

Documents are `List Char`.  JavaScript regular-expression matching is
embedded by specialized backtracking matchers that follow the exact
alternation order, greediness and laziness of the regex literals in the
source.  JS exceptions are `Except`: a render function that may throw has
type `PropsMap → Except Str Str`, and `mount` propagates errors exactly
where the source has no try/catch.  Loops whose JS originals can diverge
(the exec/replace loop) take explicit fuel.
-/

abbrev Str := List Char

/-- JS `String.prototype.startsWith` on lists: `startsWithL pat s` is true
iff `pat` is an initial segment of `s`. -/
def startsWithL : Str → Str → Bool
  | [], _ => true
  | _ :: _, [] => false
  | p :: ps, c :: cs => p = c && startsWithL ps cs

/-- JS `String.prototype.includes`: substring occurrence test. -/
def containsSub : Str → Str → Bool
  | [], pat => startsWithL pat []
  | c :: t, pat => startsWithL pat (c :: t) || containsSub t pat

/-- JS `String.prototype.replace(searchString, replacement)` with a plain
string pattern: replace the first occurrence only; no occurrence leaves the
string unchanged.  (The `$`-pattern processing JS applies to string
replacements is not modelled; no replacement text used here contains `$`.) -/
def replaceFirst : Str → Str → Str → Str
  | [], pat, r => if startsWithL pat [] then r else []
  | c :: t, pat, r =>
    if startsWithL pat (c :: t) then r ++ (c :: t).drop pat.length
    else c :: replaceFirst t pat r

/-- Strip `pat` from the front of `s`, returning the remainder on success. -/
def dropStart? : Str → Str → Option Str
  | [], s => some s
  | _ :: _, [] => none
  | p :: ps, c :: cs => if p = c then dropStart? ps cs else none

/-- Lazy scan: shortest split `s = before ++ pat ++ after`, i.e. the regex
idiom `[^x]*x` / `[\s\S]*?pat`.  Returns `(before, after)`. -/
def takeUntilStr (pat : Str) : Str → Option (Str × Str)
  | [] => (dropStart? pat []).map (fun r => ([], r))
  | c :: t =>
    match dropStart? pat (c :: t) with
    | some r => some ([], r)
    | none =>
      match takeUntilStr pat t with
      | some (a, b) => some (c :: a, b)
      | none => none

/-- Number of positions at which `pat` occurs in `s` (possibly overlapping). -/
def countOccur (pat : Str) : Str → Nat
  | [] => 0
  | c :: t => (if startsWithL pat (c :: t) then 1 else 0) + countOccur pat t

/-- The apostrophe character (single quote). -/
def squote : Char := Char.ofNat 39

/-- ASCII `[A-Z]`. -/
def isUpperAZ (c : Char) : Bool := 'A' ≤ c && c ≤ 'Z'

/-- Regex class `[a-zA-Z0-9]` (tag-name continuation, and the name class of
ComponentLoader.mount's attribute regex). -/
def isTagChar (c : Char) : Bool :=
  ('a' ≤ c && c ≤ 'z') || ('A' ≤ c && c ≤ 'Z') || ('0' ≤ c && c ≤ '9')

/-- Regex class `[a-zA-Z0-9_-]` (attribute-name class of `parseProps`). -/
def isNameChar (c : Char) : Bool := isTagChar c || c = '_' || c = '-'

/-- Identifier class `[A-Za-z0-9_]` of the export-statement regex. -/
def isIdentChar (c : Char) : Bool := isTagChar c || c = '_'

/-- JS whitespace (`\s`, `String.prototype.trim`): the common ASCII members.
(The Unicode space separators JS also accepts never occur in this code's
inputs and are not modelled.) -/
def isJsWs (c : Char) : Bool :=
  c = ' ' || c = '\t' || c = '\n' || c = '\r' ||
  c = Char.ofNat 11 || c = Char.ofNat 12

/-- JS `String.prototype.trim`. -/
def jsTrim (s : Str) : Str :=
  ((s.dropWhile isJsWs).reverse.dropWhile isJsWs).reverse

/- ------------------------------------------------------------------
JSON values and `JSON.parse`, for the `{...}` attribute values handled by
`parseProps`.  Number tokens keep their lexeme (JS float semantics are not
needed: no claim inspects a numeric value, only parse success/failure). -/

inductive JValue where
  | null : JValue
  | bool : Bool → JValue
  | num : Str → JValue
  | str : Str → JValue
  | arr : List JValue → JValue
  | obj : List (Str × JValue) → JValue

/-- JSON whitespace per ECMA-404 (what `JSON.parse` skips). -/
def isJsonWs (c : Char) : Bool := c = ' ' || c = '\t' || c = '\n' || c = '\r'

def skipJsonWs (s : Str) : Str := s.dropWhile isJsonWs

def isDigit09 (c : Char) : Bool := '0' ≤ c && c ≤ '9'

def isHexDigit (c : Char) : Bool :=
  isDigit09 c || ('a' ≤ c && c ≤ 'f') || ('A' ≤ c && c ≤ 'F')

def hexVal (c : Char) : Nat :=
  if isDigit09 c then c.toNat - '0'.toNat
  else if 'a' ≤ c && c ≤ 'f' then c.toNat - 'a'.toNat + 10
  else if 'A' ≤ c && c ≤ 'F' then c.toNat - 'A'.toNat + 10
  else 0

/-- Parse the body of a JSON string (after the opening quote), returning the
decoded characters and the remainder after the closing quote.  `\uXXXX`
escapes decode to the code point (lone surrogates, which `Char` cannot
represent, fall back to the replacement of `Char.ofNat`). -/
def jsonString (fuel : Nat) (s : Str) : Option (Str × Str) :=
  match fuel, s with
  | 0, _ => none
  | _, [] => none
  | fuel + 1, c :: t =>
    if c = '"' then some ([], t)
    else if c = '\\' then
      match t with
      | [] => none
      | e :: t2 =>
        let cont (d : Char) (r : Str) : Option (Str × Str) :=
          match jsonString fuel r with
          | some (cs, rest) => some (d :: cs, rest)
          | none => none
        if e = '"' then cont '"' t2
        else if e = '\\' then cont '\\' t2
        else if e = '/' then cont '/' t2
        else if e = 'b' then cont (Char.ofNat 8) t2
        else if e = 'f' then cont (Char.ofNat 12) t2
        else if e = 'n' then cont '\n' t2
        else if e = 'r' then cont '\r' t2
        else if e = 't' then cont '\t' t2
        else if e = 'u' then
          match t2 with
          | h1 :: h2 :: h3 :: h4 :: t3 =>
            if isHexDigit h1 && isHexDigit h2 && isHexDigit h3 && isHexDigit h4 then
              cont (Char.ofNat
                (((hexVal h1 * 16 + hexVal h2) * 16 + hexVal h3) * 16 + hexVal h4)) t3
            else none
          | _ => none
        else none
    else if c.toNat < 32 then none
    else
      match jsonString fuel t with
      | some (cs, rest) => some (c :: cs, rest)
      | none => none

/-- Parse a JSON number lexeme `-?(0|[1-9][0-9]*)(\.[0-9]+)?([eE][+-]?[0-9]+)?`. -/
def jsonNumber (s : Str) : Option (Str × Str) :=
  let (neg, s1) := match s with
    | '-' :: t => (['-'], t)
    | _ => (([] : Str), s)
  match s1 with
  | [] => none
  | c :: t =>
    if c = '0' then
      let intPart := [c]
      let rest := t
      let (frac, r2) := match rest with
        | '.' :: t2 =>
          let ds := t2.takeWhile isDigit09
          if ds = [] then (([] : Str), rest) else ('.' :: ds, t2.dropWhile isDigit09)
        | _ => (([] : Str), rest)
      let (ex, r3) := match r2 with
        | e :: t3 =>
          if e = 'e' || e = 'E' then
            let (sgn, t4) := match t3 with
              | '+' :: t5 => (['+'], t5)
              | '-' :: t5 => (['-'], t5)
              | _ => (([] : Str), t3)
            let ds := t4.takeWhile isDigit09
            if ds = [] then (([] : Str), r2) else (e :: sgn ++ ds, t4.dropWhile isDigit09)
          else (([] : Str), r2)
        | _ => (([] : Str), r2)
      -- a fraction that failed to materialize leaves the dot unconsumed: then
      -- the remainder will fail to parse at the top level, as JSON.parse does
      if frac = [] && (match rest with | '.' :: _ => true | _ => false) then
        some (neg ++ intPart, rest)
      else some (neg ++ intPart ++ frac ++ ex, r3)
    else if isDigit09 c then
      let ds := c :: t.takeWhile isDigit09
      let rest := t.dropWhile isDigit09
      let (frac, r2) := match rest with
        | '.' :: t2 =>
          let fs := t2.takeWhile isDigit09
          if fs = [] then (([] : Str), rest) else ('.' :: fs, t2.dropWhile isDigit09)
        | _ => (([] : Str), rest)
      let (ex, r3) := match r2 with
        | e :: t3 =>
          if e = 'e' || e = 'E' then
            let (sgn, t4) := match t3 with
              | '+' :: t5 => (['+'], t5)
              | '-' :: t5 => (['-'], t5)
              | _ => (([] : Str), t3)
            let es := t4.takeWhile isDigit09
            if es = [] then (([] : Str), r2) else (e :: sgn ++ es, t4.dropWhile isDigit09)
          else (([] : Str), r2)
        | _ => (([] : Str), r2)
      if frac = [] && (match rest with | '.' :: _ => true | _ => false) then
        some (neg ++ ds, rest)
      else some (neg ++ ds ++ frac ++ ex, r3)
    else none

mutual

/-- Parse one JSON value at the head of `s` (no leading-whitespace skip). -/
def jsonValue (fuel : Nat) (s : Str) : Option (JValue × Str) :=
  match fuel with
  | 0 => none
  | fuel + 1 =>
    match s with
    | [] => none
    | c :: t =>
      if c = '{' then jsonObject fuel (skipJsonWs t) true
      else if c = '[' then jsonArray fuel (skipJsonWs t) true
      else if c = '"' then
        match jsonString (t.length + 1) t with
        | some (cs, rest) => some (JValue.str cs, rest)
        | none => none
      else
        match dropStart? ("true".toList) s with
        | some r => some (JValue.bool true, r)
        | none =>
          match dropStart? ("false".toList) s with
          | some r => some (JValue.bool false, r)
          | none =>
            match dropStart? ("null".toList) s with
            | some r => some (JValue.null, r)
            | none =>
              match jsonNumber s with
              | some (lex, rest) => some (JValue.num lex, rest)
              | none => none

/-- Parse the members of a JSON object after `{` (whitespace already
skipped); `first` is true before any member has been read. -/
def jsonObject (fuel : Nat) (s : Str) (first : Bool) : Option (JValue × Str) :=
  match fuel with
  | 0 => none
  | fuel + 1 =>
    match s, first with
    | '}' :: t, true => some (JValue.obj [], t)
    | s, _ =>
      match jsonMembers fuel s with
      | some (fields, rest) => some (JValue.obj fields, rest)
      | none => none

def jsonMembers (fuel : Nat) (s : Str) : Option (List (Str × JValue) × Str) :=
  match fuel with
  | 0 => none
  | fuel + 1 =>
    match s with
    | '"' :: t =>
      match jsonString (t.length + 1) t with
      | some (key, r1) =>
        match skipJsonWs r1 with
        | ':' :: r2 =>
          match jsonValue fuel (skipJsonWs r2) with
          | some (v, r3) =>
            match skipJsonWs r3 with
            | ',' :: r4 =>
              match jsonMembers fuel (skipJsonWs r4) with
              | some (fields, rest) => some ((key, v) :: fields, rest)
              | none => none
            | '}' :: r4 => some ([(key, v)], r4)
            | _ => none
          | none => none
        | _ => none
      | none => none
    | _ => none

/-- Parse the elements of a JSON array after `[` (whitespace skipped). -/
def jsonArray (fuel : Nat) (s : Str) (first : Bool) : Option (JValue × Str) :=
  match fuel with
  | 0 => none
  | fuel + 1 =>
    match s, first with
    | ']' :: t, true => some (JValue.arr [], t)
    | s, _ =>
      match jsonElements fuel s with
      | some (vs, rest) => some (JValue.arr vs, rest)
      | none => none

def jsonElements (fuel : Nat) (s : Str) : Option (List JValue × Str) :=
  match fuel with
  | 0 => none
  | fuel + 1 =>
    match jsonValue fuel s with
    | some (v, r1) =>
      match skipJsonWs r1 with
      | ',' :: r2 =>
        match jsonElements fuel (skipJsonWs r2) with
        | some (vs, rest) => some (v :: vs, rest)
        | none => none
      | ']' :: r2 => some ([v], r2)
      | _ => none
    | none => none

end

/-- `JSON.parse`: the whole text must be one JSON value surrounded by
optional whitespace; `none` is a thrown `SyntaxError`. -/
def jsonParse (s : Str) : Option JValue :=
  match jsonValue (s.length + 1) (skipJsonWs s) with
  | some (v, rest) => if skipJsonWs rest = [] then some v else none
  | none => none

/- ------------------------------------------------------------------
Props.  A parsed attribute value is a quoted string, the bare-attribute
boolean `true`, or a decoded JSON object. -/

inductive PropVal where
  | str : Str → PropVal
  | bool : Bool → PropVal
  | json : JValue → PropVal

abbrev PropsMap := List (Str × PropVal)

/-- JS object property assignment `props[name] = v`: overwrite in place if
the key exists (keeping first-insertion order), else append. -/
def setProp (m : PropsMap) (k : Str) (v : PropVal) : PropsMap :=
  match m with
  | [] => [(k, v)]
  | (k', v') :: rest =>
    if k' = k then (k', v) :: rest else (k', v') :: setProp rest k v

/-- Association-list lookup (JS `Map.prototype.get`). -/
def getKey? {α : Type} (m : List (Str × α)) (k : Str) : Option α :=
  match m with
  | [] => none
  | (k', v) :: rest => if k' = k then some v else getKey? rest k

/-- Association-list membership (JS `Map.prototype.has`). -/
def hasKey {α : Type} (m : List (Str × α)) (k : Str) : Bool :=
  match m with
  | [] => false
  | (k', _) :: rest => k' = k || hasKey rest k

/-- JS `Map.prototype.delete`: remove the entry with key `k` (keys are
unique in a `Map`, so the first suffices). -/
def eraseKey {α : Type} (m : List (Str × α)) (k : Str) : List (Str × α) :=
  match m with
  | [] => []
  | (k', v) :: rest => if k' = k then rest else (k', v) :: eraseKey rest k

/- ------------------------------------------------------------------
parseProps — src/utils/component-parser.ts:

  const attrRegex = /([a-zA-Z0-9_-]+)(?:=(?:"([^"]*)"|'([^']*)'|(\{[^}]*\})))?/g;
  while ((match = attrRegex.exec(propsStr)) !== null) {
    const [, name, doubleQuoted, singleQuoted, objectValue] = match;
    if (objectValue) {
      try {
        const cleanObject = objectValue.replace(/^\{|\}$/g, '').trim();
        props[name] = JSON.parse(`\x7b${cleanObject}\x7d`);
      } catch (error) { props[name] = objectValue; }
    } else { props[name] = doubleQuoted || singleQuoted || true; }
  }
-/

/-- `objectValue.replace(/^\x7b|\x7d$/g, '')`: drop one leading `{` and one
trailing `}` when present (distinct characters). -/
def stripOuterBraces (s : Str) : Str :=
  let s1 := match s with
    | '{' :: t => t
    | _ => s
  match s1.reverse with
  | '}' :: r => r.reverse
  | _ => s1

/-- JS truthiness fold `doubleQuoted || singleQuoted || true` for a matched
quoted group: the empty string is falsy. -/
def jsStrOrTrue (v : Str) : PropVal :=
  if v = [] then PropVal.bool true else PropVal.str v

/-- The optional value group `(?:=(?:"([^"]*)"|'([^']*)'|(\{[^}]*\})))` of
`attrRegex`, tried at the text after `name=`.  Alternatives in regex order;
each starts with a distinct character, so the first applicable one decides.
Returns the stored `PropVal` and the remainder after the group. -/
def tryAttrValue (s : Str) : Option (PropVal × Str) :=
  match s with
  | c :: t =>
    if c = '"' then
      match takeUntilStr ['"'] t with
      | some (v, r) => some (jsStrOrTrue v, r)
      | none => none
    else if c = squote then
      match takeUntilStr [squote] t with
      | some (v, r) => some (jsStrOrTrue v, r)
      | none => none
    else if c = '{' then
      match takeUntilStr ['}'] t with
      | some (inner, r) =>
        let objectValue := '{' :: (inner ++ ['}'])
        let clean := jsTrim (stripOuterBraces objectValue)
        match jsonParse ('{' :: (clean ++ ['}'])) with
        | some j => some (PropVal.json j, r)
        | none => some (PropVal.str objectValue, r)
      | none => none
    else none
  | [] => none

/-- The `attrRegex.exec` loop of `parseProps`.  A position whose character
is outside the name class cannot start a match and is skipped; at a name
character the greedy name is munched, then the optional value group is
tried; when it fails the group matches empty (bare attribute) and scanning
resumes right after the name, exactly as `exec`'s `lastIndex` does. -/
def parsePropsLoop (fuel : Nat) (acc : PropsMap) (s : Str) : PropsMap :=
  match fuel with
  | 0 => acc
  | fuel + 1 =>
    match s with
    | [] => acc
    | c :: t =>
      if isNameChar c then
        let name := c :: t.takeWhile isNameChar
        let r1 := t.dropWhile isNameChar
        match r1 with
        | '=' :: r2 =>
          match tryAttrValue r2 with
          | some (v, r3) => parsePropsLoop fuel (setProp acc name v) r3
          | none => parsePropsLoop fuel (setProp acc name (PropVal.bool true)) r1
        | _ => parsePropsLoop fuel (setProp acc name (PropVal.bool true)) r1
      else parsePropsLoop fuel acc t

/-- `parseProps` of src/utils/component-parser.ts. -/
def parseProps (propsStr : Str) : PropsMap :=
  parsePropsLoop (propsStr.length + 1) [] propsStr

/- ------------------------------------------------------------------
The capitalized-tag regexes of ComponentLoader.mount:

  pre-scan      /<([A-Z][a-zA-Z0-9]*)([^>]*?)(?:\/?>|>[\s\S]*?<\/\1>)/g
  substitution  /<([A-Z][a-zA-Z0-9]*)([^>]*?)(?:\/>|>([\s\S]*?)<\/\1>)/g

They differ only in the first alternative of the closing group (`/?>` with
an optional slash vs `/>`), selected below by `optSlash`.  The matchers
reproduce the engine's order: greedy tag name (longest first, backtracking
shorter), lazy attribute run over `[^>]`, alternative 1 before
alternative 2, lazy children up to the back-referenced closing tag. -/

structure TagMatch where
  name : Str
  attrs : Str
  children : Option Str
  matched : Str
  rest : Str

/-- The closing group `(?:/?>|>[\s\S]*?</name>)` (or `/>` for the first
alternative when `optSlash` is false), at the text after the attributes.
Returns `(children?, text consumed by the group, remainder)`. -/
def tryAlts (optSlash : Bool) (name : Str) (s : Str) : Option (Option Str × Str × Str) :=
  match s with
  | '/' :: '>' :: r => some (none, ['/', '>'], r)
  | '>' :: r =>
    if optSlash then some (none, ['>'], r)
    else
      let close := '<' :: '/' :: (name ++ ['>'])
      match takeUntilStr close r with
      | some (ch, rest) => some (some ch, '>' :: (ch ++ close), rest)
      | none => none
  | _ => none

/-- The lazy attribute run `([^>]*?)` followed by the closing group: try the
group with zero attribute characters, then extend one `[^>]` character at a
time.  Returns `(attrs, children?, group text, remainder)`. -/
def tryAttrs (optSlash : Bool) (name : Str) : Str → Option (Str × Option Str × Str × Str)
  | [] => none
  | c :: t =>
    match tryAlts optSlash name (c :: t) with
    | some (ch, alt, r) => some ([], ch, alt, r)
    | none =>
      if c = '>' then none
      else
        match tryAttrs optSlash name t with
        | some (a, ch, alt, r) => some (c :: a, ch, alt, r)
        | none => none

/-- Splits of `l` into `(taken, dropped)`, longest `taken` first — the
backtracking order of the greedy `[a-zA-Z0-9]*` name tail. -/
def splitsDesc (l : Str) : List (Str × Str) :=
  (List.range (l.length + 1)).reverse.map (fun k => (l.take k, l.drop k))

/-- Try the whole tag regex anchored at the head of `s`. -/
def execAt (optSlash : Bool) (s : Str) : Option TagMatch :=
  match s with
  | '<' :: c0 :: rest =>
    if isUpperAZ c0 then
      let alnum := rest.takeWhile isTagChar
      let tail := rest.dropWhile isTagChar
      (splitsDesc alnum).findSome? (fun p =>
        match tryAttrs optSlash (c0 :: p.1) (p.2 ++ tail) with
        | some (attrs, ch, alt, r) =>
          some ⟨c0 :: p.1, attrs, ch,
                '<' :: c0 :: (p.1 ++ attrs ++ alt), r⟩
        | none => none)
    else none
  | _ => none

/-- Leftmost match: `regex.exec` semantics on the text from the current
`lastIndex` on — returns the text before the match and the match. -/
def execSearch (optSlash : Bool) : Str → Option (Str × TagMatch)
  | [] => none
  | c :: t =>
    match execAt optSlash (c :: t) with
    | some m => some ([], m)
    | none =>
      match execSearch optSlash t with
      | some (pre, m) => some (c :: pre, m)
      | none => none

/-- `matchAll` of the pre-scan regex, keeping only the captured tag name of
each match (the only group the pre-scan loop reads). -/
def matchAllNames (fuel : Nat) (s : Str) : List Str :=
  match fuel with
  | 0 => []
  | fuel + 1 =>
    match execSearch true s with
    | some (_, m) => m.name :: matchAllNames fuel m.rest
    | none => []

/- ------------------------------------------------------------------
Components and the registry boundary.  `loadExportedComponent` performs
file I/O and dynamic evaluation; `mount` only observes its result, so the
registry enters the embedding as a pure resolution function
`load : Str → Option Component` standing for the populated cache
(`none` = miss or failed load).  A render function may throw. -/

structure Component where
  render : PropsMap → Except Str Str
  styles : Option Str

abbrev Loader := Str → Option Component

/-- One step of the pre-scan style collection:

  const component = await this.loadExportedComponent(componentName, directory);
  if (component?.styles && !componentStyles.has(componentName)) {
    componentStyles.set(componentName, component.styles);
  }

`component?.styles` is falsy for a missing component, an absent `styles`
field, and the empty string. -/
def collectStep (load : Loader) (acc : List (Str × Str)) (n : Str) : List (Str × Str) :=
  match load n with
  | some comp =>
    match comp.styles with
    | some st => if st ≠ [] && !hasKey acc n then acc ++ [(n, st)] else acc
    | none => acc
  | none => acc

/-- Style pre-collection over the pre-scanned tag names, in match order. -/
def collectStyles (load : Loader) (names : List Str) : List (Str × Str) :=
  names.foldl (collectStep load) []

/-- `<style>\n` + collected styles joined by `\n` + `\n</style>`. -/
def styleTagOf (styles : List (Str × Str)) : Str :=
  ("<style>\n".toList) ++ ((styles.map Prod.snd).intersperse ['\n']).flatten
    ++ ("\n</style>".toList)

/- ------------------------------------------------------------------
Legacy explicit-include pass:

  result = result.replace(/<component\s+src="([^"]+)"[^>]*>/g, (match, src) => {
    try {
      const componentContent = this.components.get(src);
      if (!componentContent) throw new Error(`...`);
      return componentContent;
    } catch (error) { return `<!-- Error loading component ` + src + ` -->`; }
  });
-/

/-- Match `/<component\s+src="([^"]+)"[^>]*>/` at the head of `s`:
the literal, one-or-more whitespace, `src="`, a nonempty quote-free capture,
the closing quote, then greedily `[^>]*` and `>`.  Returns `(src, rest)`. -/
def legacyAt (s : Str) : Option (Str × Str) :=
  match dropStart? ("<component".toList) s with
  | none => none
  | some r0 =>
    let ws := r0.takeWhile isJsWs
    let r1 := r0.dropWhile isJsWs
    if ws = [] then none
    else
      match dropStart? ("src=\"".toList) r1 with
      | none => none
      | some r2 =>
        match takeUntilStr ['"'] r2 with
        | some (src, r3) =>
          if src = [] then none
          else
            -- `[^>]*` is greedy but cannot cross `>`, then the literal `>`:
            -- together they consume exactly up to and including the first `>`
            match takeUntilStr ['>'] r3 with
            | some (_, r4) => some (src, r4)
            | none => none
        | none => none

/-- The replacement callback's value for a matched `src`: the raw-content
cache entry when present and truthy, else the error comment. -/
def legacyContent (cache : List (Str × Str)) (src : Str) : Str :=
  match getKey? cache src with
  | some content =>
    if content = [] then
      ("<!-- Error loading component ".toList) ++ src ++ (" -->".toList)
    else content
  | none => ("<!-- Error loading component ".toList) ++ src ++ (" -->".toList)

/-- Global `String.replace` with the legacy regex and callback: scan left to
right, replace each match, never rescan replacement text. -/
def legacyReplaceAux (cache : List (Str × Str)) (fuel : Nat) (s : Str) : Str :=
  match fuel with
  | 0 => s
  | fuel + 1 =>
    match s with
    | [] => []
    | c :: t =>
      match legacyAt (c :: t) with
      | some (src, rest) => legacyContent cache src ++ legacyReplaceAux cache fuel rest
      | none => c :: legacyReplaceAux cache fuel t

def legacyReplaceAll (cache : List (Str × Str)) (s : Str) : Str :=
  legacyReplaceAux cache (s.length + 1) s

/- ------------------------------------------------------------------
ComponentLoader.mount's inline attribute parsing:

  const attributeRegex = /([a-zA-Z0-9]+)(?:="([^"]*)"|'([^']*)')?/g;
  while ((attrMatch = attributeRegex.exec(attributesStr)) !== null) {
    const [_, name, value1, value2] = attrMatch;
    props[name] = value1 || value2 || true;
  }

Note the second alternative has no `=`; a `name='v'` attribute therefore
falls to the empty optional group and the quoted text is rescanned. -/

/-- The optional group `(?:="([^"]*)"|'([^']*)')?` at the text after the
name; returns the JS-truthiness-folded value and the remainder. -/
def mountAttrValue (s : Str) : Option (PropVal × Str) :=
  match s with
  | '=' :: '"' :: t =>
    (match takeUntilStr ['"'] t with
     | some (v, r) => some (jsStrOrTrue v, r)
     | none => none)
  | c :: t =>
    if c = squote then
      match takeUntilStr [squote] t with
      | some (v, r) => some (jsStrOrTrue v, r)
      | none => none
    else none
  | [] => none

def mountParseAttrsLoop (fuel : Nat) (acc : PropsMap) (s : Str) : PropsMap :=
  match fuel with
  | 0 => acc
  | fuel + 1 =>
    match s with
    | [] => acc
    | c :: t =>
      if isTagChar c then
        let name := c :: t.takeWhile isTagChar
        let r1 := t.dropWhile isTagChar
        match mountAttrValue r1 with
        | some (v, r2) => mountParseAttrsLoop fuel (setProp acc name v) r2
        | none => mountParseAttrsLoop fuel (setProp acc name (PropVal.bool true)) r1
      else mountParseAttrsLoop fuel acc t

def mountParseAttrs (attributesStr : Str) : PropsMap :=
  mountParseAttrsLoop (attributesStr.length + 1) [] attributesStr

/- ------------------------------------------------------------------
The exec/lastIndex substitution loop of ComponentLoader.mount:

  let match;
  while ((match = componentRegex.exec(result)) !== null) {
    const [fullMatch, componentName, attributesStr, children] = match;
    const component = await this.loadExportedComponent(componentName, directory);
    if (component) {
      if (component.styles && !componentStyles.has(componentName)) {
        componentStyles.set(componentName, component.styles);
      }
      ... parse attributes ...
      if (children) { props.children = children.trim(); }
      const rendered = component.render(props);      // no try/catch
      result = result.replace(fullMatch, rendered);  // first occurrence
    } else { ... log only ... }
  }

`exec` resumes from the regex object's `lastIndex`, which is set to the end
index of the match in the string it matched against — the replacement can
be shorter or longer, so the resume point need not coincide with the end of
the replacement.  The JS loop can diverge (a render result can keep placing
new matches after `lastIndex`), hence the fuel; `Except.error` from a render
is the uncaught exception aborting `mount`. -/

structure MountSt where
  result : Str
  lastIndex : Nat
  stylesMap : List (Str × Str)

def childrenProp (props : PropsMap) (children : Option Str) : PropsMap :=
  match children with
  | some ch => if ch ≠ [] then setProp props ("children".toList) (PropVal.str (jsTrim ch)) else props
  | none => props

def substLoop (load : Loader) : Nat → MountSt → Except Str Str
  | 0, _ => Except.error ("mount: loop fuel exhausted".toList)
  | fuel + 1, st =>
    match execSearch false (st.result.drop st.lastIndex) with
    | none => Except.ok st.result
    | some (pre, m) =>
      let newLast := st.lastIndex + pre.length + m.matched.length
      match load m.name with
      | none => substLoop load fuel { st with lastIndex := newLast }
      | some comp =>
        let styles' := collectStep load st.stylesMap m.name
        let props := childrenProp (mountParseAttrs m.attrs) m.children
        match comp.render props with
        | Except.error e => Except.error e
        | Except.ok rendered =>
          substLoop load fuel
            { result := replaceFirst st.result m.matched rendered,
              lastIndex := newLast,
              stylesMap := styles' }

/-- Head normalization:

  if (!result.includes('<head>')) {
    result = result.replace('<html', '<html>\n<head>\n</head>');
  }
-/
def headNormalize (html : Str) : Str :=
  if containsSub html ("<head>".toList) then html
  else replaceFirst html ("<html".toList) ("<html>\n<head>\n</head>".toList)

/-- `ComponentLoader.mount(html, directory)`.  `load` stands for
`loadExportedComponent` in `directory`; `rawCache` is the `components`
raw-content cache used by the legacy pass; `fuel` bounds the substitution
loop's iterations. -/
def mount (load : Loader) (rawCache : List (Str × Str)) (fuel : Nat) (html : Str) :
    Except Str Str :=
  let result := headNormalize html
  let names := matchAllNames (result.length + 1) result
  let styles := collectStyles load names
  let result :=
    if styles ≠ [] then
      replaceFirst result ("</head>".toList) (styleTagOf styles ++ ("\n</head>".toList))
    else result
  let result := legacyReplaceAll rawCache result
  substLoop load fuel ⟨result, 0, styles⟩

/- ------------------------------------------------------------------
ComponentManager.injectStylesLink (src/dev-server.ts):

  if (html.includes('href="/elysium/styles.css"')) return html;
  if (!html.includes('src="/public/htmx.min.js"')) {
    html = html.replace('</head>', '  <script src="/public/htmx.min.js"></script>\n</head>');
  }
  return html.replace('</head>', '  <link rel="stylesheet" href="/elysium/styles.css">\n</head>');
-/

def stylesSentinel : Str := "href=\"/elysium/styles.css\"".toList

def htmxSentinel : Str := "src=\"/public/htmx.min.js\"".toList

def headClose : Str := "</head>".toList

def htmxScriptRepl : Str :=
  "  <script src=\"/public/htmx.min.js\"></script>\n</head>".toList

def stylesLinkRepl : Str :=
  "  <link rel=\"stylesheet\" href=\"/elysium/styles.css\">\n</head>".toList

def injectStylesLink (html : Str) : Str :=
  if containsSub html stylesSentinel then html
  else
    let h1 :=
      if containsSub html htmxSentinel then html
      else replaceFirst html headClose htmxScriptRepl
    replaceFirst h1 headClose stylesLinkRepl

/-- ComponentManager.getAllStyles: `Array.from(this.styles.values()).join('\n\n')`. -/
def getAllStyles (styles : List (Str × Str)) : Str :=
  ((styles.map Prod.snd).intersperse ("\n\n".toList)).flatten

/- ------------------------------------------------------------------
The dev-server invalidation path (setupDevServer, src/dev-server.ts):

  componentWatcher.on('unlink', (filePath) => {
    const componentName = path.basename(filePath, '.els');
    server.componentManager.components.delete(componentName);
    server.componentManager.styles.delete(componentName);
  });

and the cache key those maps actually use, from ComponentManager.loadComponent
→ parseComponentFile (src/utils/component-parser.ts): the identifier captured
by /export\s+([A-Za-z0-9_]+)\s*=/ on the file's content. -/

/-- `path.basename(filePath, '.els')`: the last path segment, with a proper
`.els` suffix removed. -/
def basenameEls (p : Str) : Str :=
  let base := (p.reverse.takeWhile (fun c => c ≠ '/')).reverse
  if startsWithL (".els".toList) (base.drop (base.length - 4)) && base.length > 4 then
    base.take (base.length - 4)
  else base

/-- Try `/export\s+([A-Za-z0-9_]+)\s*=/` anchored at the head of `s`. -/
def exportMatchAt (s : Str) : Option Str :=
  match dropStart? ("export".toList) s with
  | none => none
  | some r =>
    let ws := r.takeWhile isJsWs
    let r1 := r.dropWhile isJsWs
    if ws = [] then none
    else
      let ident := r1.takeWhile isIdentChar
      let r2 := r1.dropWhile isIdentChar
      if ident = [] then none
      else
        match r2.dropWhile isJsWs with
        | '=' :: _ => some ident
        | _ => none

/-- `content.match(/export\s+([A-Za-z0-9_]+)\s*=/)`: first match in the
content; the captured identifier is the name the component is cached under. -/
def exportNameOf : Str → Option Str
  | [] => none
  | c :: t =>
    match exportMatchAt (c :: t) with
    | some n => some n
    | none => exportNameOf t

/-- The two ComponentManager caches the watcher mutates. -/
structure CMState where
  components : List (Str × Component)
  styles : List (Str × Str)

/-- The `unlink` handler of `setupDevServer`. -/
def onUnlink (st : CMState) (filePath : Str) : CMState :=
  let componentName := basenameEls filePath
  { components := eraseKey st.components componentName,
    styles := eraseKey st.styles componentName }

/-- ComponentManager.loadComponent's cache update, for a successfully parsed
component: store the definition under the parsed (exported) name, and the
styles too when truthy. -/
def loadComponentUpd (st : CMState) (name : Str) (comp : Component) : CMState :=
  { components := (eraseKey st.components name) ++ [(name, comp)],
    styles :=
      match comp.styles with
      | some s => if s ≠ [] then (eraseKey st.styles name) ++ [(name, s)] else st.styles
      | none => st.styles }

/- ------------------------------------------------------------------
Auxiliary notions used by the statements. -/

/-- Adjacent-pair safety: `b` may not be an ASCII capital when `a` is `<`. -/
def tagSafeB (a b : Char) : Bool := !(a = '<' && isUpperAZ b)

/-- Scanner deciding that no `<` is immediately followed by a capital. -/
def capTagFreeB : Str → Bool
  | c :: d :: t => tagSafeB c d && capTagFreeB (d :: t)
  | _ => true

/-- A document with zero capitalized component tags: no `<` immediately
followed by an ASCII capital letter, so neither tag regex can match. -/
def CapTagFree (s : Str) : Prop := capTagFreeB s = true

instance (s : Str) : Decidable (CapTagFree s) := inferInstanceAs (Decidable (_ = true))

/-- Number of entries of an association list carrying key `k`. -/
def keyCount {α : Type} (m : List (Str × α)) (k : Str) : Nat :=
  match m with
  | [] => 0
  | (k', _) :: rest => (if k' = k then 1 else 0) + keyCount rest k

/- ------------------------------------------------------------------
Concrete registries and documents used to evaluate the mount pipeline. -/

/-- A component whose render always throws. -/
def boomComp : Component := ⟨fun _ => Except.error ("boom".toList), none⟩

/-- A component whose render returns `[ok]`. -/
def okComp : Component := ⟨fun _ => Except.ok ("[ok]".toList), none⟩

/-- Registry resolving `Boom` (throwing render) and `Ok`. -/
def loadC1 : Loader := fun n =>
  if n = ("Boom".toList) then some boomComp
  else if n = ("Ok".toList) then some okComp else none

def docBoom : Str := "<html><head></head><Boom/><Ok/></html>".toList

def docMissOk : Str := "<html><head></head><Miss/><Ok/></html>".toList

/-- The empty registry: every resolution misses. -/
def loadNone : Loader := fun _ => none

def docMissing : Str :=
  "<html><head></head><body><Missing foo=\"1\" /></body></html>".toList

/-- Registry where `A` renders 20 filler characters followed by `<B/>`, and
`B` renders `bee`.  The filler makes the replacement longer than the match
`<A/>`, so the resumed scan lands inside the rendered output. -/
def loadAB : Loader := fun n =>
  if n = ("A".toList) then
    some ⟨fun _ => Except.ok ("XXXXXXXXXXXXXXXXXXXX<B/>".toList), none⟩
  else if n = ("B".toList) then some ⟨fun _ => Except.ok ("bee".toList), none⟩
  else none

/-- Like `loadAB` but `A` renders exactly `<B/>`, the same length as the
match `<A/>`, so the resume index coincides with the end of the replacement. -/
def loadA2B : Loader := fun n =>
  if n = ("A".toList) then some ⟨fun _ => Except.ok ("<B/>".toList), none⟩
  else if n = ("B".toList) then some ⟨fun _ => Except.ok ("bee".toList), none⟩
  else none

def docA : Str := "<html><head></head><A/></html>".toList

/-- Registry where `A` (no styles) renders a tag of `Inner`, which carries
styles. -/
def loadInner : Loader := fun n =>
  if n = ("A".toList) then some ⟨fun _ => Except.ok ("<Inner/>".toList), none⟩
  else if n = ("Inner".toList) then
    some ⟨fun _ => Except.ok ("[inner]".toList), some ("INNERSTYLE".toList)⟩
  else none

/-- Registry resolving `Card` with non-empty styles. -/
def loadCard : Loader := fun n =>
  if n = ("Card".toList) then
    some ⟨fun _ => Except.ok ("[card]".toList), some ("CARDSTYLE".toList)⟩
  else none

def docTwoCards : Str :=
  "<html><head></head><body><Card>a</Card><Card>b</Card></body></html>".toList

def docTwoCardsHeadless : Str := "<div><Card/><Card/></div>".toList

def docNoRoot : Str := "<div>Hi</div>".toList

def docLegacy : Str := "<html><head></head><component src=\"x\"></html>".toList

/-- The component cached under its exported name `Card`, as
`ComponentManager.loadComponent` stores it after parsing `card.els`. -/
def cardCompC7 : Component :=
  ⟨fun _ => Except.ok ("OLDCARD".toList), some ("CARDSTYLE".toList)⟩

/-- The leading line of `templates/default/app/components/card.els`; the
export-name regex finds its first (and only) match here. -/
def cardElsExportLine : Str := "export Card = \x7b\n  render: (props) => \x7b".toList

/-- ComponentManager state after `card.els` has been loaded: both caches
are keyed by the exported name `Card`. -/
def stC7 : CMState :=
  ⟨[(("Card".toList), cardCompC7)], [(("Card".toList), ("CARDSTYLE".toList))]⟩

def cardElsPath : Str := "app/components/card.els".toList

/- ==================================================================
Lemmas about the string utilities. -/

theorem startsWithL_append {p s : Str} (t : Str) (h : startsWithL p s = true) :
    startsWithL p (s ++ t) = true := by
  induction p generalizing s with
  | nil => rfl
  | cons c cs ih =>
    cases s with
    | nil => simp [startsWithL] at h
    | cons d ds =>
      simp only [startsWithL, Bool.and_eq_true, decide_eq_true_eq] at h ⊢
      exact ⟨h.1, ih h.2⟩

theorem startsWithL_self_append (p t : Str) : startsWithL p (p ++ t) = true := by
  induction p with
  | nil => rfl
  | cons c cs ih => simp [startsWithL, ih]

theorem eq_append_drop_of_startsWithL {p s : Str} (h : startsWithL p s = true) :
    s = p ++ s.drop p.length := by
  induction p generalizing s with
  | nil => simp
  | cons c cs ih =>
    cases s with
    | nil => simp [startsWithL] at h
    | cons d ds =>
      simp only [startsWithL, Bool.and_eq_true, decide_eq_true_eq] at h
      simp only [List.length_cons, List.drop_succ_cons, List.cons_append, List.cons.injEq]
      exact ⟨h.1.symm, ih h.2⟩

theorem containsSub_nil_pat (s : Str) : containsSub s [] = true := by
  cases s <;> simp [containsSub, startsWithL]

theorem containsSub_cons {t pat : Str} (c : Char) (h : containsSub t pat = true) :
    containsSub (c :: t) pat = true := by
  simp [containsSub, h]

theorem containsSub_of_startsWithL {s pat : Str} (h : startsWithL pat s = true) :
    containsSub s pat = true := by
  cases s <;> simp [containsSub, h]

theorem containsSub_append_left {a pat : Str} (b : Str) (h : containsSub a pat = true) :
    containsSub (a ++ b) pat = true := by
  induction a with
  | nil =>
    cases pat with
    | nil => exact containsSub_nil_pat b
    | cons p ps => simp [containsSub, startsWithL] at h
  | cons c t ih =>
    simp only [containsSub, Bool.or_eq_true] at h
    rcases h with h | h
    · exact containsSub_of_startsWithL (startsWithL_append b h)
    · exact containsSub_cons c (ih h)

theorem replaceFirst_no_occ {s pat : Str} (r : Str) (h : containsSub s pat = false) :
    replaceFirst s pat r = s := by
  induction s with
  | nil =>
    simp only [containsSub] at h
    simp [replaceFirst, h]
  | cons c t ih =>
    simp only [containsSub, Bool.or_eq_false_iff] at h
    simp [replaceFirst, h.1, ih h.2]

theorem containsSub_replaceFirst {s pat r x : Str} (hs : containsSub s pat = true)
    (hr : containsSub r x = true) : containsSub (replaceFirst s pat r) x = true := by
  induction s with
  | nil =>
    cases pat with
    | nil => simpa [replaceFirst, startsWithL] using hr
    | cons p ps => simp [containsSub, startsWithL] at hs
  | cons c t ih =>
    by_cases hp : startsWithL pat (c :: t) = true
    · simp only [replaceFirst, hp, if_true]
      exact containsSub_append_left _ hr
    · simp only [containsSub, Bool.or_eq_true] at hs
      rcases hs with hs | hs
      · exact absurd hs hp
      · simp only [replaceFirst, hp, if_false, Bool.false_eq_true]
        exact containsSub_cons c (ih hs)

theorem replaceFirst_decomp {s pat : Str} (r : Str) (hs : containsSub s pat = true) :
    ∃ u v, s = u ++ pat ++ v ∧ replaceFirst s pat r = u ++ r ++ v := by
  induction s with
  | nil =>
    cases pat with
    | nil => exact ⟨[], [], by simp, by simp [replaceFirst, startsWithL]⟩
    | cons p ps => simp [containsSub, startsWithL] at hs
  | cons c t ih =>
    by_cases hp : startsWithL pat (c :: t) = true
    · refine ⟨[], (c :: t).drop pat.length, ?_, ?_⟩
      · simpa using eq_append_drop_of_startsWithL hp
      · simp [replaceFirst, hp]
    · simp only [containsSub, Bool.or_eq_true] at hs
      rcases hs with hs | hs
      · exact absurd hs hp
      · obtain ⟨u, v, h1, h2⟩ := ih hs
        exact ⟨c :: u, v, by simp [h1], by simp [replaceFirst, hp, h2]⟩

theorem takeWhile_append_of_all {p : Char → Bool} {l : Str} (rest : Str)
    (h : ∀ c ∈ l, p c = true) :
    List.takeWhile p (l ++ rest) = l ++ List.takeWhile p rest := by
  induction l with
  | nil => simp
  | cons c t ih =>
    have hc := h c (by simp)
    simp only [List.cons_append, List.takeWhile_cons, hc, if_true]
    simp [ih (fun d hd => h d (by simp [hd]))]

theorem dropWhile_append_of_all {p : Char → Bool} {l : Str} (rest : Str)
    (h : ∀ c ∈ l, p c = true) :
    List.dropWhile p (l ++ rest) = List.dropWhile p rest := by
  induction l with
  | nil => simp
  | cons c t ih =>
    have hc := h c (by simp)
    simp only [List.cons_append, List.dropWhile_cons, hc, if_true]
    exact ih (fun d hd => h d (by simp [hd]))

theorem takeUntilStr_char_free {ch : Char} {inner : Str} (r : Str)
    (h : ∀ x ∈ inner, x ≠ ch) :
    takeUntilStr [ch] (inner ++ ch :: r) = some (inner, r) := by
  induction inner with
  | nil => simp [takeUntilStr, dropStart?]
  | cons x t ih =>
    have hx : ¬(ch = x) := fun he => (h x (by simp)) he.symm
    simp only [List.cons_append, takeUntilStr, dropStart?, hx, if_false]
    simp [ih (fun d hd => h d (by simp [hd]))]


/- ==================================================================
Lemmas about capitalized-tag-free documents and style collection. -/

theorem capTagFree_chain' {s : Str} :
    CapTagFree s ↔ List.Chain' (fun a b => tagSafeB a b = true) s := by
  unfold CapTagFree
  induction s with
  | nil => simp [capTagFreeB]
  | cons c t ih =>
    cases t with
    | nil => simp [capTagFreeB]
    | cons d t' =>
      rw [List.chain'_cons, ← ih]
      exact iff_of_eq (Bool.and_eq_true _ _)

theorem CapTagFree.tail {c : Char} {t : Str} (h : CapTagFree (c :: t)) : CapTagFree t := by
  cases t with
  | nil => rfl
  | cons d t' =>
    unfold CapTagFree capTagFreeB at h
    simp only [Bool.and_eq_true] at h
    exact h.2

theorem execAt_none {s : Str} (b : Bool) (h : CapTagFree s) : execAt b s = none := by
  match s with
  | [] => rfl
  | [c] =>
    unfold execAt
    split
    · next heq => simp at heq
    · rfl
  | c :: d :: t =>
    unfold execAt
    split
    · next c0 rest heq =>
      have hc : c = '<' := by injection heq
      have hd : d = c0 := by
        injection heq with h1 h2
        injection h2
      subst hc
      rw [← hd]
      have hpair : tagSafeB '<' d = true := by
        unfold CapTagFree capTagFreeB at h
        simp only [Bool.and_eq_true] at h
        exact h.1
      have hup : isUpperAZ d = false := by
        simpa [tagSafeB] using hpair
      simp [hup]
    · rfl

theorem execSearch_none {s : Str} (b : Bool) (h : CapTagFree s) :
    execSearch b s = none := by
  induction s with
  | nil => rfl
  | cons c t ih =>
    have h1 : execAt b (c :: t) = none := execAt_none b h
    have h2 : execSearch b t = none := ih h.tail
    simp [execSearch, h1, h2]

theorem matchAllNames_of_no_match {s : Str} (fuel : Nat)
    (h : execSearch true s = none) : matchAllNames fuel s = [] := by
  cases fuel with
  | zero => rfl
  | succ n => simp [matchAllNames, h]

theorem capTagFree_headNormalize {doc : Str} (h : CapTagFree doc) :
    CapTagFree (headNormalize doc) := by
  unfold headNormalize
  split
  · exact h
  · by_cases hm : containsSub doc ("<html".toList) = true
    · obtain ⟨u, v, h1, h2⟩ :=
        replaceFirst_decomp ("<html>\n<head>\n</head>".toList) hm
      rw [h2]
      rw [h1, capTagFree_chain'] at h
      rw [capTagFree_chain']
      obtain ⟨huh, hv, _⟩ := List.chain'_append.mp h
      obtain ⟨hu, _, _⟩ := List.chain'_append.mp huh
      apply List.chain'_append.mpr
      refine ⟨?_, hv, ?_⟩
      · apply List.chain'_append.mpr
        refine ⟨hu, capTagFree_chain'.mp (by decide), ?_⟩
        intro x _ y hy
        have hy' : y = '<' := by
          have hhd : (("<html>\n<head>\n</head>".toList).head?) = some '<' := by decide
          rw [hhd] at hy
          exact (by simpa using hy : '<' = y).symm
        subst hy'
        have hlt : isUpperAZ '<' = false := by decide
        simp [tagSafeB, hlt]
      · intro x hx y _
        have hx' : x = '>' := by
          rw [List.getLast?_append_of_ne_nil _ (by decide)] at hx
          have hlast : (("<html>\n<head>\n</head>".toList).getLast?) = some '>' := by decide
          rw [hlast] at hx
          exact (by simpa using hx : '>' = x).symm
        subst hx'
        simp [tagSafeB]
    · rw [replaceFirst_no_occ _ (by simpa using hm)]
      exact h

theorem keyCount_append_single {α : Type} (m : List (Str × α)) (k n : Str) (v : α) :
    keyCount (m ++ [(n, v)]) k = keyCount m k + (if n = k then 1 else 0) := by
  induction m with
  | nil => simp [keyCount]
  | cons p rest ih =>
    obtain ⟨k', v'⟩ := p
    simp only [List.cons_append, keyCount, List.append_eq, ih]
    omega

theorem keyCount_zero_of_not_hasKey {α : Type} {m : List (Str × α)} {k : Str}
    (h : hasKey m k = false) : keyCount m k = 0 := by
  induction m with
  | nil => rfl
  | cons p rest ih =>
    obtain ⟨k', v'⟩ := p
    simp only [hasKey, Bool.or_eq_false_iff, decide_eq_false_iff_not] at h
    simp [keyCount, h.1, ih h.2]

theorem collectStep_keyCount_le (load : Loader) {acc : List (Str × Str)} (n : Str)
    (h : ∀ k, keyCount acc k ≤ 1) : ∀ k, keyCount (collectStep load acc n) k ≤ 1 := by
  intro k
  cases hl : load n with
  | none => simpa [collectStep, hl] using h k
  | some comp =>
    cases hst : comp.styles with
    | none => simpa [collectStep, hl, hst] using h k
    | some st =>
      by_cases hc : (st ≠ [] && !hasKey acc n) = true
      · have hgoal : collectStep load acc n = acc ++ [(n, st)] := by
          simp only [collectStep, hl, hst]
          rw [if_pos hc]
        have hc' := hc
        simp only [Bool.and_eq_true, Bool.not_eq_true', decide_eq_true_eq] at hc'
        rw [hgoal, keyCount_append_single]
        by_cases hnk : n = k
        · subst hnk
          have hz : keyCount acc n = 0 := keyCount_zero_of_not_hasKey hc'.2
          simp [hz]
        · simp only [hnk, if_false]
          simpa using h k
      · have hgoal : collectStep load acc n = acc := by
          simp only [collectStep, hl, hst]
          rw [if_neg hc]
        rw [hgoal]
        exact h k

theorem collectStyles_aux_dedup (load : Loader) (names : List Str) :
    ∀ acc : List (Str × Str), (∀ k, keyCount acc k ≤ 1) →
      ∀ k, keyCount (names.foldl (collectStep load) acc) k ≤ 1 := by
  induction names with
  | nil => intro acc h k; exact h k
  | cons n rest ih =>
    intro acc h k
    exact ih (collectStep load acc n) (collectStep_keyCount_le load n h) k

theorem collectStyles_dedup (load : Loader) (names : List Str) (k : Str) :
    keyCount (collectStyles load names) k ≤ 1 :=
  collectStyles_aux_dedup load names [] (fun _ => Nat.le_succ 0) k

/- ==================================================================
Lemmas about the style-link injector and the mount frame. -/

theorem injectStylesLink_of_sentinel {x : Str} (h : containsSub x stylesSentinel = true) :
    injectStylesLink x = x := by
  simp [injectStylesLink, h]

theorem injectStylesLink_no_head {x : Str} (hs : ¬containsSub x stylesSentinel = true)
    (hh : containsSub x headClose = false) : injectStylesLink x = x := by
  unfold injectStylesLink
  rw [if_neg hs]
  by_cases hx : containsSub x htmxSentinel = true
  · simp only [hx, if_true]
    exact replaceFirst_no_occ _ hh
  · simp only [hx, Bool.false_eq_true, if_false]
    rw [replaceFirst_no_occ _ hh, replaceFirst_no_occ _ hh]

theorem injectStylesLink_gains_sentinel {x : Str}
    (hs : ¬containsSub x stylesSentinel = true)
    (hh : containsSub x headClose = true) :
    containsSub (injectStylesLink x) stylesSentinel = true := by
  unfold injectStylesLink
  rw [if_neg hs]
  by_cases hx : containsSub x htmxSentinel = true
  · simp only [hx, if_true]
    exact containsSub_replaceFirst hh (by decide)
  · simp only [hx, Bool.false_eq_true, if_false]
    have hh2 : containsSub (replaceFirst x headClose htmxScriptRepl) headClose = true :=
      containsSub_replaceFirst hh (by decide)
    exact containsSub_replaceFirst hh2 (by decide)

theorem mount_no_tags (load : Loader) (cache : List (Str × Str)) (fuel : Nat) (doc : Str)
    (hf : 0 < fuel) (hc : CapTagFree doc)
    (hl : legacyReplaceAll cache (headNormalize doc) = headNormalize doc) :
    mount load cache fuel doc = Except.ok (headNormalize doc) := by
  have hcn : CapTagFree (headNormalize doc) := capTagFree_headNormalize hc
  have hscan : execSearch true (headNormalize doc) = none := execSearch_none true hcn
  have hnames : matchAllNames ((headNormalize doc).length + 1) (headNormalize doc) = [] :=
    matchAllNames_of_no_match _ hscan
  simp only [mount, hnames, collectStyles, List.foldl_nil, ne_eq, not_true_eq_false,
    Bool.false_eq_true, if_false, hl]
  obtain ⟨k, rfl⟩ : ∃ k, fuel = k + 1 := ⟨fuel - 1, by omega⟩
  unfold substLoop
  simp only [List.drop_zero]
  rw [execSearch_none false hcn]

/- ==================================================================
Lemmas about the attribute parsers. -/

theorem parsePropsLoop_nil (fuel : Nat) (acc : PropsMap) :
    parsePropsLoop fuel acc [] = acc := by
  cases fuel <;> rfl

theorem parseProps_wf_name_step {n : Str} (suffix : Str) (fuel : Nat) (acc : PropsMap)
    (hn1 : n ≠ []) (hn2 : ∀ c ∈ n, isNameChar c = true) :
    parsePropsLoop (fuel + 1) acc (n ++ '=' :: suffix) =
      (match tryAttrValue suffix with
       | some (v, r3) => parsePropsLoop fuel (setProp acc n v) r3
       | none => parsePropsLoop fuel (setProp acc n (PropVal.bool true)) ('=' :: suffix)) := by
  cases n with
  | nil => exact absurd rfl hn1
  | cons c t =>
    have hc : isNameChar c = true := hn2 c (by simp)
    have ht : ∀ d ∈ t, isNameChar d = true := fun d hd => hn2 d (by simp [hd])
    have heqn : isNameChar '=' = false := by decide
    have htw : List.takeWhile isNameChar (t ++ '=' :: suffix) = t := by
      rw [takeWhile_append_of_all _ ht]
      simp [List.takeWhile_cons, heqn]
    have hdw : List.dropWhile isNameChar (t ++ '=' :: suffix) = '=' :: suffix := by
      rw [dropWhile_append_of_all _ ht]
      simp [List.dropWhile_cons, heqn]
    simp only [List.cons_append, parsePropsLoop, hc, if_true, htw, hdw]

theorem takeWhile_all {p : Char → Bool} {l : Str} (h : ∀ c ∈ l, p c = true) :
    l.takeWhile p = l := by
  induction l with
  | nil => rfl
  | cons c t ih =>
    simp [List.takeWhile_cons, h c (by simp), ih (fun d hd => h d (by simp [hd]))]

theorem dropWhile_all {p : Char → Bool} {l : Str} (h : ∀ c ∈ l, p c = true) :
    l.dropWhile p = [] := by
  induction l with
  | nil => rfl
  | cons c t ih =>
    simp [List.dropWhile_cons, h c (by simp), ih (fun d hd => h d (by simp [hd]))]

theorem parsePropsLoop_bare {n : Str} (fuel : Nat) (acc : PropsMap)
    (hn1 : n ≠ []) (hn2 : ∀ c ∈ n, isNameChar c = true) :
    parsePropsLoop (fuel + 1) acc n = setProp acc n (PropVal.bool true) := by
  cases n with
  | nil => exact absurd rfl hn1
  | cons c t =>
    have hc : isNameChar c = true := hn2 c (by simp)
    have ht : ∀ d ∈ t, isNameChar d = true := fun d hd => hn2 d (by simp [hd])
    have htw : List.takeWhile isNameChar t = t := takeWhile_all ht
    have hdw : List.dropWhile isNameChar t = [] := dropWhile_all ht
    simp only [parsePropsLoop, hc, if_true, htw, hdw]
    exact parsePropsLoop_nil fuel _

theorem stripOuterBraces_wrap (inner : Str) :
    stripOuterBraces ('{' :: (inner ++ ['}'])) = inner := by
  unfold stripOuterBraces
  simp [List.reverse_append]

theorem tryAttrValue_bad_object {inner : Str} (hi : ∀ x ∈ inner, x ≠ '}')
    (hj : jsonParse ('{' :: (jsTrim inner ++ ['}'])) = none) :
    tryAttrValue ('{' :: (inner ++ ['}'])) =
      some (PropVal.str ('{' :: (inner ++ ['}'])), []) := by
  unfold tryAttrValue
  dsimp only
  rw [if_neg (by decide), if_neg (by decide), if_pos rfl]
  rw [takeUntilStr_char_free [] hi]
  simp only [stripOuterBraces_wrap]
  rw [hj]

/- ==================================================================
Claim theorems. -/

/-- Claim C1, counterexample: the claim says `mount` returns normally even
when a component's render raises, catching the failure at single-tag
granularity.  On the document `<html><head></head><Boom/><Ok/></html>`
with `Boom`'s render throwing, `mount` itself throws (`Except.error`), so
it does not return normally, no error placeholder is produced, and the
later `<Ok/>` tag is never processed. -/
theorem C1_counterexample_render_error_aborts_mount :
    mount loadC1 [] 20 docBoom = Except.error ("boom".toList) := rfl

/-- Claim C1, amended: `mount` has no try/catch around `render`: a render
exception propagates out of `mount` and aborts the whole document, while a
resolution failure (registry miss) is handled per tag — the tag is left in
place and the rest of the document is still processed, as the continued
substitution of `<Ok/>` after the unresolved `<Miss/>` shows. -/
theorem C1_amended_render_error_uncaught :
    mount loadC1 [] 20 docMissOk =
      Except.ok ("<html><head></head><Miss/>[ok]</html>".toList) ∧
    mount loadC1 [] 20 docBoom = Except.error ("boom".toList) :=
  ⟨rfl, rfl⟩

/-- Claim C2, counterexample: the claim says an unresolvable capitalized
tag is left in place *with an adjacent diagnostic HTML comment*.  On
`<Missing foo="1" />` with an empty registry, `mount` returns the document
completely unchanged: the output contains no `<!--` at all, hence no
diagnostic comment. -/
theorem C2_counterexample_no_diagnostic_comment :
    mount loadNone [] 20 docMissing = Except.ok docMissing ∧
    containsSub docMissing ("<!--".toList) = false :=
  ⟨rfl, by decide⟩

/-- Claim C2, amended: an unresolved capitalized tag is left in the output
verbatim (never dropped) and `mount` does not throw, but no diagnostic
comment is inserted into the document — the diagnostic goes to the console
log only. -/
theorem C2_amended_unresolved_tag_left_verbatim :
    mount loadNone [] 20 docMissing = Except.ok docMissing ∧
    containsSub docMissing ("<Missing foo=\"1\" />".toList) = true :=
  ⟨rfl, by decide⟩

/-- Claim C3, counterexample: the claim says no tag inside an
already-substituted render output is matched in the same pass.  With `A`
rendering twenty filler characters followed by `<B/>`, the resume index
(end of the original `<A/>` span) falls inside the longer replacement, and
the `<B/>` inside that substituted output *is* matched and substituted to
`bee` in the same mount pass. -/
theorem C3_counterexample_rendered_output_rescanned :
    mount loadAB [] 20 docA =
      Except.ok ("<html><head></head>XXXXXXXXXXXXXXXXXXXXbee</html>".toList) ∧
    containsSub ("<html><head></head>XXXXXXXXXXXXXXXXXXXXbee</html>".toList)
      ("bee".toList) = true :=
  ⟨rfl, by decide⟩

/-- Claim C3, amended: scanning resumes at the index just past the
*original* matched span (the regex object's `lastIndex`), not past the
replacement text.  Rendered output lying before that index is skipped — as
here, where `A` renders `<B/>` of the same length as the match and the
`<B/>` survives unsubstituted — but rendered output at or beyond that
index is re-scanned (see the counterexample). -/
theorem C3_amended_resume_at_original_match_end :
    mount loadA2B [] 20 docA = Except.ok ("<html><head></head><B/></html>".toList) ∧
    containsSub ("<html><head></head><B/></html>".toList) ("<B/>".toList) = true ∧
    containsSub ("<html><head></head><B/></html>".toList) ("bee".toList) = false :=
  ⟨rfl, by decide, by decide⟩

/-- Claim C4, counterexample: the claim says the style-block portion of
`mount (mount doc)` equals that of `mount doc`, guarded by a sentinel
presence test.  `ComponentLoader.mount` has no such test: here the first
mount emits no style block (its pre-scan sees no styled tag), but its
output still contains `<Inner/>`, so the second mount injects a style
block the first did not — the style-block portions differ. -/
theorem C4_counterexample_mount_style_not_idempotent :
    mount loadInner [] 20 docA =
      Except.ok ("<html><head></head><Inner/></html>".toList) ∧
    mount loadInner [] 20 ("<html><head></head><Inner/></html>".toList) =
      Except.ok
        ("<html><head><style>\nINNERSTYLE\n</style>\n</head>[inner]</html>".toList) ∧
    containsSub ("<html><head></head><Inner/></html>".toList)
      ("<style>".toList) = false ∧
    containsSub
      ("<html><head><style>\nINNERSTYLE\n</style>\n</head>[inner]</html>".toList)
      ("<style>".toList) = true :=
  ⟨rfl, rfl, by decide, by decide⟩

/-- Claim C4, amended: `ComponentLoader.mount` performs no sentinel
presence test and a second mount can add a style block absent from the
first output.  The sentinel-guarded idempotent injection the spec
describes is the dev server's stylesheet-link injector: for every
document, `injectStylesLink` is idempotent — its `href="/elysium/styles.css"`
presence test makes the second application the identity. -/
theorem C4_amended_injectStylesLink_idempotent (html : Str) :
    injectStylesLink (injectStylesLink html) = injectStylesLink html := by
  by_cases hs : containsSub html stylesSentinel = true
  · rw [injectStylesLink_of_sentinel hs]
    exact injectStylesLink_of_sentinel hs
  · by_cases hh : containsSub html headClose = true
    · exact injectStylesLink_of_sentinel (injectStylesLink_gains_sentinel hs hh)
    · have h1 := injectStylesLink_no_head hs (by simpa using hh)
      rw [h1]
      exact h1

/-- Claim C5, counterexample: the claim says the mounted output contains
exactly one copy of a styled component's styles for *every* input
document.  A document with no head section and no `<html` root gets no
head synthesized, the style injection's `</head>` replacement is a no-op,
and the output contains zero copies of `Card`'s styles even though two
`<Card/>` tags occur. -/
theorem C5_counterexample_headless_doc_styles_dropped :
    mount loadCard [] 20 docTwoCardsHeadless =
      Except.ok ("<div>[card]<Card/></div>".toList) ∧
    countOccur ("CARDSTYLE".toList) ("<div>[card]<Card/></div>".toList) = 0 :=
  ⟨rfl, by decide⟩

/-- Claim C5, amended: the aggregated style collection holds each
component's styles at most once (the `componentStyles.has` guard), so a
document *that has a head* containing two `<Card>...</Card>` occurrences
mounts to an output with exactly one copy of `Card`'s styles; a document
whose normalized form has no `</head>` gets zero copies (see the
counterexample). -/
theorem C5_amended_styles_once_with_head :
    (∀ (load : Loader) (names : List Str) (k : Str),
        keyCount (collectStyles load names) k ≤ 1) ∧
    mount loadCard [] 20 docTwoCards =
      Except.ok
        (("<html><head><style>\nCARDSTYLE\n</style>\n</head>" ++
          "<body>[card]<Card>b</Card></body></html>").toList) ∧
    countOccur ("CARDSTYLE".toList)
      (("<html><head><style>\nCARDSTYLE\n</style>\n</head>" ++
        "<body>[card]<Card>b</Card></body></html>").toList) = 1 :=
  ⟨collectStyles_dedup, rfl, by decide⟩

/-- Claim C6, counterexample: the claim says `data={not json}` yields the
literal string `not json` for key `data`.  The parser stores the matched
group *including the braces*: the value is `{not json}`, not `not json`. -/
theorem C6_counterexample_braces_kept :
    parseProps ("data={not json}".toList) =
      [(("data".toList), PropVal.str ("{not json}".toList))] ∧
    ("{not json}".toList) ≠ ("not json".toList) :=
  ⟨rfl, by decide⟩

/-- Claim C6, amended: for every attribute `name={inner}` whose re-wrapped,
trimmed body fails JSON decoding, `parseProps` stores the whole bracketed
text `{inner}` (braces included) as a literal string instead of throwing;
`parseProps` is total, so mounting completes. -/
theorem C6_amended_bracketed_text_kept_verbatim (n inner : Str)
    (hn1 : n ≠ []) (hn2 : ∀ c ∈ n, isNameChar c = true)
    (hi : ∀ x ∈ inner, x ≠ '}')
    (hj : jsonParse ('{' :: (jsTrim inner ++ ['}'])) = none) :
    parseProps (n ++ '=' :: '{' :: (inner ++ ['}'])) =
      [(n, PropVal.str ('{' :: (inner ++ ['}'])))] := by
  unfold parseProps
  have hlen : (n ++ '=' :: '{' :: (inner ++ ['}'])).length + 1 =
      (n.length + (inner.length + 3)) + 1 := by
    simp [List.length_append]
  rw [hlen, parseProps_wf_name_step _ _ _ hn1 hn2, tryAttrValue_bad_object hi hj]
  dsimp only
  rw [parsePropsLoop_nil]
  rfl

/-- Claim C6, witness: the amended statement evaluated at
`data={not json}`. -/
theorem C6_amended_witness :
    parseProps ("data={not json}".toList) =
      [(("data".toList), PropVal.str ("{not json}".toList))] := by
  have h := C6_amended_bracketed_text_kept_verbatim ("data".toList) ("not json".toList)
    (by decide) (by decide) (by decide) rfl
  exact h

/-- Claim C7, code bug: the dev server's `unlink` handler derives the key
to delete from the file basename (`card`), but `ComponentManager`'s caches
are keyed by the *exported* name the parser captures (`Card`, per the
repository's own templates, which pair lowercase file names with
capitalized exports).  After the remove event for
`app/components/card.els`, both caches are unchanged and the stale `Card`
definition is still served — nothing was invalidated. -/
theorem C7_codebug_unlink_misses_component_key :
    (onUnlink stC7 cardElsPath).components = stC7.components ∧
    (onUnlink stC7 cardElsPath).styles = stC7.styles ∧
    getKey? (onUnlink stC7 cardElsPath).components ("Card".toList) = some cardCompC7 ∧
    basenameEls cardElsPath = ("card".toList) ∧
    exportNameOf cardElsExportLine = some ("Card".toList) ∧
    ("card".toList) ≠ ("Card".toList) :=
  ⟨rfl, rfl, rfl, rfl, rfl, by decide⟩

/-- Claim C8, counterexample: the claim says a head section is synthesized
for *every* document lacking one.  A document without the literal `<html`
(here `<div>Hi</div>`) is left without any head: `mount` returns it
unchanged and no `</head>` injection point exists. -/
theorem C8_counterexample_no_root_no_head :
    containsSub docNoRoot ("<head>".toList) = false ∧
    mount loadNone [] 20 docNoRoot = Except.ok docNoRoot ∧
    containsSub (headNormalize docNoRoot) ("</head>".toList) = false :=
  ⟨by decide, rfl, by decide⟩

/-- Claim C8, amended: when a document lacking `<head>` does contain the
literal `<html`, head normalization splices `>\n<head>\n</head>` right
after the first `<html` occurrence (inside the root tag, before any of its
attributes), so a `</head>` injection point then exists; a document with
no `<html` at all is left without one. -/
theorem C8_amended_head_synthesized_after_html_literal (doc : Str)
    (h1 : containsSub doc ("<head>".toList) = false)
    (h2 : containsSub doc ("<html".toList) = true) :
    containsSub (headNormalize doc) ("</head>".toList) = true := by
  unfold headNormalize
  rw [if_neg (by simpa using h1)]
  exact containsSub_replaceFirst h2 (by decide)

/-- Claim C8, witness: the amended statement evaluated at
`<html lang="en"></html>`, a headless document with an attributed root. -/
theorem C8_amended_witness :
    containsSub (headNormalize ("<html lang=\"en\"></html>".toList))
      ("</head>".toList) = true :=
  C8_amended_head_synthesized_after_html_literal _ (by decide) (by decide)

/-- Claim C9, counterexample: the claim says a document with zero
capitalized tags is returned unchanged except for head normalization.
`docLegacy` has no capitalized tag, yet its lowercase legacy tag
`<component src="x">` is replaced by an error comment, so bytes beyond
head normalization change (head normalization itself is the identity
here, since the document already has a head). -/
theorem C9_counterexample_legacy_tag_substituted :
    CapTagFree docLegacy ∧
    mount loadNone [] 20 docLegacy =
      Except.ok
        ("<html><head></head><!-- Error loading component x --></html>".toList) ∧
    ("<html><head></head><!-- Error loading component x --></html>".toList) ≠
      headNormalize docLegacy :=
  ⟨by decide, rfl, by decide⟩

/-- Claim C9, amended: for every document with no capitalized tag start
(no `<` followed by an ASCII capital) whose normalized form the legacy
`<component src=...>` pass also leaves unchanged, `mount` returns exactly
the head-normalized document: no styles are collected or injected and the
substitution loop finds nothing. -/
theorem C9_amended_frame_no_cap_no_legacy (load : Loader) (cache : List (Str × Str))
    (fuel : Nat) (doc : Str) (hf : 0 < fuel) (hc : CapTagFree doc)
    (hl : legacyReplaceAll cache (headNormalize doc) = headNormalize doc) :
    mount load cache fuel doc = Except.ok (headNormalize doc) :=
  mount_no_tags load cache fuel doc hf hc hl

/-- Claim C9, witness: the amended statement evaluated on `<p>hi</p>` with
the empty registry. -/
theorem C9_amended_witness :
    mount loadNone [] 1 ("<p>hi</p>".toList) =
      Except.ok (headNormalize ("<p>hi</p>".toList)) :=
  C9_amended_frame_no_cap_no_legacy loadNone [] 1 _ (by decide) (by decide) rfl

/-- Claim C10: an explicitly empty quoted attribute value (`name=""` or
`name=''`) is stored as the boolean `true`, because the matched empty
string is falsy in the `doubleQuoted || singleQuoted || true` fold — so it
is indistinguishable from a bare attribute in the resulting `PropsMap`.
Stated for `parseProps` over every well-formed attribute name, and for
`ComponentLoader.mount`'s inline attribute parser at `disabled=""`. -/
theorem C10_empty_quoted_value_equals_bare_attribute (n : Str)
    (hn1 : n ≠ []) (hn2 : ∀ c ∈ n, isNameChar c = true) :
    parseProps (n ++ ("=\"\"".toList)) = [(n, PropVal.bool true)] ∧
    parseProps (n ++ '=' :: squote :: squote :: []) = [(n, PropVal.bool true)] ∧
    parseProps n = [(n, PropVal.bool true)] ∧
    mountParseAttrs (" disabled=\"\"".toList) =
      [(("disabled".toList), PropVal.bool true)] := by
  refine ⟨?_, ?_, ?_, rfl⟩
  · unfold parseProps
    have hlen : (n ++ ("=\"\"".toList)).length + 1 = (n.length + 3) + 1 := by
      simp [List.length_append]
    rw [show ("=\"\"".toList) = '=' :: '"' :: '"' :: [] from rfl] at hlen ⊢
    rw [hlen, parseProps_wf_name_step _ _ _ hn1 hn2]
    have htv : tryAttrValue ('"' :: '"' :: []) = some (PropVal.bool true, []) := rfl
    rw [htv]
    dsimp only
    rw [parsePropsLoop_nil]
    rfl
  · unfold parseProps
    have hlen : (n ++ '=' :: squote :: squote :: []).length + 1 = (n.length + 3) + 1 := by
      simp [List.length_append]
    rw [hlen, parseProps_wf_name_step _ _ _ hn1 hn2]
    have htv : tryAttrValue (squote :: squote :: []) = some (PropVal.bool true, []) := rfl
    rw [htv]
    dsimp only
    rw [parsePropsLoop_nil]
    rfl
  · unfold parseProps
    cases hn : n.length with
    | zero => exact absurd (List.length_eq_zero.mp hn) hn1
    | succ k =>
      rw [parsePropsLoop_bare (k + 1) [] hn1 hn2]
      rfl

/-- Claim C10, witness: the statement evaluated at the attribute name
`disabled`. -/
theorem C10_witness :
    parseProps ("disabled=\"\"".toList) = [(("disabled".toList), PropVal.bool true)] := by
  have h := (C10_empty_quoted_value_equals_bare_attribute ("disabled".toList)
    (by decide) (by decide)).1
  exact h
